import Mathlib

/-!
Verification development for the list-view helpers of django-smart-lists
(file smart_lists/helpers.py).  The definitions below are a shallow
embedding of the Python code: Python strings become Lean strings (with the
relevant str methods modelled over the underlying character list), Python
dicts become ordered association lists, and code that can raise an
exception returns an Option, where `none` models the raised exception.
-/

/-! ## Decimal digits and Python `int` / `str` on naturals -/

/-- The character for the decimal digit d (for d < 10). -/
def digitChar (d : Nat) : Char := Char.ofNat (48 + d)

/-- Fuel-driven helper computing the decimal digits of n, most significant
first.  Structural recursion on the fuel keeps it kernel-reducible. -/
def natDigitsAux : Nat → Nat → List Char
  | 0, _ => []
  | fuel + 1, n =>
    if n < 10 then [digitChar n]
    else natDigitsAux fuel (n / 10) ++ [digitChar (n % 10)]

/-- The decimal representation of n as characters: models Python str(n)
for a non-negative integer n. -/
def natDigits (n : Nat) : List Char := natDigitsAux (n + 1) n

/-- Accumulator pass of decimal parsing. -/
def digitsVal (cs : List Char) : Nat :=
  cs.foldl (fun a c => a * 10 + (c.toNat - 48)) 0

/-- Models Python int(s) on the strings that reach it in helpers.py: the
segments have had every dash removed already, so int succeeds exactly on
non-empty all-digit strings, and raising ValueError is modelled by none. -/
def parseNat (cs : List Char) : Option Nat :=
  if !cs.isEmpty && cs.all Char.isDigit then some (digitsVal cs) else none

/-! ## Python str.split("."), str.replace("-", ""), "." .join -/

/-- Models Python s.split(chr): splits on every occurrence of the dot,
keeping empty segments, and the split of the empty string is [""]. -/
def splitDot : List Char → List (List Char)
  | [] => [[]]
  | c :: rest =>
    match splitDot rest with
    | [] => [[]]
    | g :: gs => if c = '.' then [] :: g :: gs else (c :: g) :: gs

/-- Models Python "." .join(parts). -/
def intercalateDot : List (List Char) → List Char
  | [] => []
  | [x] => x
  | x :: xs => x ++ '.' :: intercalateDot xs

/-- Models s.replace("-", ""): the pattern is a single character, so the
replacement is exactly a filter. -/
def stripDashes (cs : List Char) : List Char := cs.filter (fun c => c ≠ '-')

/-- Runs int() over every segment, propagating the first failure: models
the list comprehension [int(col) for col in segments]. -/
def parseAll : List (List Char) → Option (List Nat)
  | [] => some []
  | p :: rest =>
    (parseNat p).bind (fun n => (parseAll rest).map (fun r => n :: r))

/-! ## Query parameter mappings and the codec (QueryParamsMixin) -/

/-- A value stored in a query-parameter mapping: a single string, or a
list of strings as produced by dict(QueryDict) for repeated keys. -/
inductive QueryValue where
  | str (s : String)
  | list (l : List String)
deriving DecidableEq, Repr

/-- An ordered mapping from parameter names to values, modelling a Python
dict by an association list in insertion order (keys unique in use). -/
abbrev QueryParams := List (String × QueryValue)

/-- Python membership and subscript access on a dict, as one lookup. -/
def dictGet (qp : QueryParams) (k : String) : Option QueryValue :=
  (qp.find? (fun p => p.1 == k)).map Prod.snd

/-- The list-collapsing step of get_url_with_query_params: a single string
passes through, a list value is replaced by value[0]; indexing an empty
list raises IndexError, modelled by none. -/
def collapseValue : QueryValue → Option String
  | .str s => some s
  | .list l => l.head?

/-- The first loop of get_url_with_query_params applied to every entry,
turning the mapping into single-string values (still tagged with Option
String so that the None sentinel of overrides can live in the same dict). -/
def collapseAll : QueryParams → Option (List (String × Option String))
  | [] => some []
  | (k, v) :: rest =>
    (collapseValue v).bind (fun s => (collapseAll rest).map (fun r => (k, some s) :: r))

/-- Python dict assignment d[k] = v: overwrite in place when the key is
present, append otherwise. -/
def updOne (q : List (String × Option String)) (k : String) (v : Option String) :
    List (String × Option String) :=
  if q.any (fun p => p.1 == k) then q.map (fun p => if p.1 == k then (k, v) else p)
  else q ++ [(k, v)]

/-- Python dict.update(overrides), applied key by key in order. -/
def dictUpdate (q : List (String × Option String))
    (upd : List (String × Option String)) : List (String × Option String) :=
  upd.foldl (fun acc kv => updOne acc kv.1 kv.2) q

/-- The body of QueryParamsMixin.get_url_with_query_params up to the final
urlencode: copy the mapping, collapse list values to their first element,
apply the overrides, then delete every key whose value is None.  Returns
the resulting key/value pairs in order; none models a raised exception. -/
def updated_query (query_params : QueryParams)
    (new_query_dict : List (String × Option String)) :
    Option (List (String × String)) :=
  (collapseAll query_params).map (fun base =>
    (dictUpdate base new_query_dict).filterMap (fun p => p.2.map (fun v => (p.1, v))))

/-- Upper-case hexadecimal digit, used by percent-encoding. -/
def hexDigit (n : Nat) : Char :=
  if n < 10 then digitChar n else Char.ofNat (55 + n)

/-- Percent-encoding of one character the way urllib quote_plus does it:
ASCII letters, digits and the four always-safe marks pass through, a space
becomes a plus, anything else is the percent-encoding of its UTF-8 bytes. -/
def quotePlusChar (c : Char) : String :=
  if c.isAlphanum || c == '_' || c == '.' || c == '-' || c == '~' then String.singleton c
  else if c == ' ' then String.singleton '+'
  else String.join (((String.singleton c).toUTF8.toList).map
    (fun b => String.mk ['%', hexDigit (b.toNat / 16), hexDigit (b.toNat % 16)]))

/-- Models urllib quote_plus on a whole string. -/
def quotePlus (s : String) : String := String.join (s.data.map quotePlusChar)

/-- Models django.utils.http.urlencode on a mapping with string values,
iterated in insertion order. -/
def urlencode (pairs : List (String × String)) : String :=
  String.intercalate (String.singleton '&')
    (pairs.map (fun p => quotePlus p.1 ++ String.singleton '=' ++ quotePlus p.2))

/-- QueryParamsMixin.get_url_with_query_params: the full method, returning
the final relative URL; none models a raised exception. -/
def get_url_with_query_params (query_params : QueryParams)
    (new_query_dict : List (String × Option String)) : Option String :=
  (updated_query query_params new_query_dict).map
    (fun pairs => String.singleton '?' ++ urlencode pairs)

/-! ## SmartOrder: the sort-token state machine -/

/-- The derived state of SmartOrder.__init__: the stored constructor
arguments, the looked-up sort parameter value, and the parsed column ids.
query_order = none models both an absent parameter and an empty-list
value (both are falsy and both raise on any later string method). -/
structure SmartOrder where
  query_params : QueryParams
  column_id : Nat
  ordering_query_param : String
  query_order : Option String
  current_columns : List Nat
deriving DecidableEq, Repr

/-- The parse in SmartOrder.__init__: strip every dash from the token,
split the result on dots, and run int() on every segment. -/
def parseCols (s : String) : Option (List Nat) :=
  parseAll (splitDot (stripDashes s.data))

/-- SmartOrder.__init__: looks up the ordering parameter, and parses
current_columns when the value is truthy; none models the ValueError
raised by int() on a malformed token (and the AttributeError raised by
replace() on a non-empty list value). -/
def SmartOrder.init (query_params : QueryParams) (column_id : Nat)
    (ordering_query_param : String) : Option SmartOrder :=
  match dictGet query_params ordering_query_param with
  | none => some ⟨query_params, column_id, ordering_query_param, none, []⟩
  | some (QueryValue.list []) => some ⟨query_params, column_id, ordering_query_param, none, []⟩
  | some (QueryValue.list (_ :: _)) => none
  | some (QueryValue.str s) =>
    if s.data.isEmpty then some ⟨query_params, column_id, ordering_query_param, some s, []⟩
    else (parseCols s).map (fun cols => ⟨query_params, column_id, ordering_query_param, some s, cols⟩)

/-- SmartOrder.is_ordered. -/
def SmartOrder.is_ordered (o : SmartOrder) : Bool :=
  o.current_columns.contains o.column_id

/-- The loop body of SmartOrder.is_reverse over the dot-split segments:
returns true at the first segment that parses to cid and starts with a
dash, false after the loop; none models int() raising. -/
def isReverseList (cid : Nat) : List (List Char) → Option Bool
  | [] => some false
  | col :: rest =>
    (parseNat (stripDashes col)).bind (fun c =>
      if c == cid && col.head? == some '-' then some true
      else isReverseList cid rest)

/-- SmartOrder.is_reverse; none models the exception raised when the sort
parameter is absent (AttributeError) or malformed (ValueError). -/
def SmartOrder.is_reverse (o : SmartOrder) : Option Bool :=
  o.query_order.bind (fun s => isReverseList o.column_id (splitDot s.data))

/-- The filtering loop shared by get_add_sort_by and get_remove_sort_by:
keeps, in order, every original segment that does not parse to cid. -/
def removeColList (cid : Nat) : List (List Char) → Option (List (List Char))
  | [] => some []
  | col :: rest =>
    (parseNat (stripDashes col)).bind (fun c =>
      (removeColList cid rest).map (fun r => if c = cid then r else col :: r))

/-- The loop of get_reverse_sort_by: the segment parsing to cid has its
sign toggled (the dash-stripped text, or a dash prepended to it), every
other segment passes through unchanged. -/
def reverseColList (cid : Nat) : List (List Char) → Option (List (List Char))
  | [] => some []
  | col :: rest =>
    (parseNat (stripDashes col)).bind (fun c =>
      (reverseColList cid rest).map (fun r =>
        if c = cid then
          (if col.head? == some '-' then stripDashes col :: r
           else ('-' :: stripDashes col) :: r)
        else col :: r))

/-- SmartOrder.get_remove_sort_by. -/
def SmartOrder.get_remove_sort_by (o : SmartOrder) : Option String :=
  o.query_order.bind (fun s =>
    (removeColList o.column_id (splitDot s.data)).bind (fun nq =>
      get_url_with_query_params o.query_params
        [(o.ordering_query_param, some (String.mk (intercalateDot nq)))]))

/-- SmartOrder.get_reverse_sort_by. -/
def SmartOrder.get_reverse_sort_by (o : SmartOrder) : Option String :=
  o.query_order.bind (fun s =>
    (reverseColList o.column_id (splitDot s.data)).bind (fun nq =>
      get_url_with_query_params o.query_params
        [(o.ordering_query_param, some (String.mk (intercalateDot nq)))]))

/-- SmartOrder.get_add_sort_by: prepend when not ordered (or use the bare
column id when the token is falsy), remove-and-re-prepend with the
direction shortcut when ordered among several columns, and delegate to
get_reverse_sort_by when it is the only ordered column. -/
def SmartOrder.get_add_sort_by (o : SmartOrder) : Option String :=
  if !o.is_ordered then
    match o.query_order with
    | some s =>
      if !s.data.isEmpty then
        get_url_with_query_params o.query_params
          [(o.ordering_query_param, some (String.mk (natDigits o.column_id ++ '.' :: s.data)))]
      else
        get_url_with_query_params o.query_params
          [(o.ordering_query_param, some (String.mk (natDigits o.column_id)))]
    | none =>
      get_url_with_query_params o.query_params
        [(o.ordering_query_param, some (String.mk (natDigits o.column_id)))]
  else if 1 < o.current_columns.length then
    o.query_order.bind (fun s =>
      (removeColList o.column_id (splitDot s.data)).bind (fun nq =>
        o.is_reverse.bind (fun rev =>
          o.current_columns.head?.bind (fun h =>
            if !rev && h == o.column_id then
              get_url_with_query_params o.query_params
                [(o.ordering_query_param,
                  some (String.mk ('-' :: natDigits o.column_id ++ '.' :: intercalateDot nq)))]
            else
              get_url_with_query_params o.query_params
                [(o.ordering_query_param,
                  some (String.mk (natDigits o.column_id ++ '.' :: intercalateDot nq)))]))))
  else o.get_reverse_sort_by

/-! ## Sort-token grammar (spec section 3), for stating the claims -/

/-- One element of a sort token: a column id and its direction. -/
structure SortElem where
  id : Nat
  desc : Bool
deriving DecidableEq, Repr

/-- The text of one token element: the decimal id, dash-prefixed when the
direction is descending. -/
def renderElem (e : SortElem) : List Char :=
  (if e.desc then ['-'] else []) ++ natDigits e.id

/-- The token string encoding an ordered list of signed column ids,
dot-separated (spec section 3). -/
def renderToken (elems : List SortElem) : String :=
  String.mk (intercalateDot (elems.map renderElem))

/-- A well-formed token in the sense of the spec: ids are at least 1 and
pairwise distinct. -/
def WFToken (elems : List SortElem) : Prop :=
  (∀ e ∈ elems, 1 ≤ e.id) ∧ (elems.map SortElem.id).Nodup

/-- The direction the add operation gives the re-inserted primary column:
descending exactly when the clicked column was already primary and was
ascending (the promote-and-reverse shortcut). -/
def promoteDesc (elems : List SortElem) (cid : Nat) : Bool :=
  match elems.head? with
  | some h => h.id == cid && !h.desc
  | none => false

/-- Sign toggle on every element whose id is cid, order preserved. -/
def toggleElems (cid : Nat) (elems : List SortElem) : List SortElem :=
  elems.map (fun e => if e.id = cid then ⟨e.id, !e.desc⟩ else e)

/-! ## Filters: SmartFilterValue and SmartFilter -/

/-- A value carried by a filter option: the None sentinel of the All
option, an integer choice value, or a string value. -/
inductive FilterVal where
  | none
  | int (n : Int)
  | str (s : String)
deriving DecidableEq, Repr

/-- Python equality between a query-parameter string and a stored option
value: int and None values never compare equal to a string. -/
def pyEqStrVal (s : String) : FilterVal → Bool
  | .str t => s == t
  | _ => false

/-- SmartFilterValue: one selectable filter option. -/
structure SmartFilterValue where
  field_name : String
  label : String
  value : FilterVal
  query_params : QueryParams
deriving DecidableEq, Repr

/-- SmartFilterValue.is_active: when the parameter is present its value
(first element when it is a list) is compared with ==; when absent, only
the None-valued All option is active.  none models the IndexError on an
empty list value. -/
def SmartFilterValue.is_active (f : SmartFilterValue) : Option Bool :=
  match dictGet f.query_params f.field_name with
  | some qv => (collapseValue qv).map (fun s => pyEqStrVal s f.value)
  | none => some (match f.value with | .none => true | _ => false)

/-- The outcome of the model-field dispatch in SmartFilter.get_values: a
custom SmartListFilter with its lookups, a field with declared choices, a
BooleanField, a ForeignKey with the distinct referenced objects of the
current object list (display label and primary key, the pk already passed
through str), or a plain field none of whose branches apply. -/
inductive FieldKind where
  | customFilter (lookups : List (FilterVal × String))
  | choicesField (choices : List (FilterVal × String))
  | booleanField
  | foreignKeyField (objects : List (String × String))
  | plainField
deriving DecidableEq, Repr

/-- SmartFilter: the parameter name (field_name equals parameter_name for
custom filters), the dispatched field kind, and the query parameters. -/
structure SmartFilter where
  field_name : String
  kind : FieldKind
  query_params : QueryParams
deriving DecidableEq, Repr

/-- SmartFilter.get_values: the branch values prefixed with the synthetic
All option whose value is the None sentinel.  The boolean branch uses the
int values 1 and 0 exactly as the source does. -/
def SmartFilter.get_values (f : SmartFilter) : List SmartFilterValue :=
  let values : List SmartFilterValue :=
    match f.kind with
    | .customFilter lookups =>
      lookups.map (fun c => ⟨f.field_name, c.2, c.1, f.query_params⟩)
    | .choicesField choices =>
      choices.map (fun c => ⟨f.field_name, c.2, c.1, f.query_params⟩)
    | .booleanField =>
      [⟨f.field_name, ("Yes"), .int 1, f.query_params⟩,
       ⟨f.field_name, ("No"), .int 0, f.query_params⟩]
    | .foreignKeyField objects =>
      objects.map (fun o => ⟨f.field_name, o.1, .str o.2, f.query_params⟩)
    | .plainField => []
  ⟨f.field_name, ("All"), .none, f.query_params⟩ :: values

/-! ## Lemmas: decimal digits -/

theorem natDigitsAux_congr : ∀ f g n : Nat, n < f → n < g → natDigitsAux f n = natDigitsAux g n := by
  intro f
  induction f with
  | zero => intro g n hf _; omega
  | succ f ih =>
    intro g n hf hg
    cases g with
    | zero => omega
    | succ g =>
      simp only [natDigitsAux]
      by_cases h10 : n < 10
      · simp [h10]
      · have hdiv : n / 10 < n := Nat.div_lt_self (by omega) (by omega)
        rw [if_neg h10, if_neg h10, ih g (n / 10) (by omega) (by omega)]

theorem natDigits_eq (n : Nat) :
    natDigits n = if n < 10 then [digitChar n] else natDigits (n / 10) ++ [digitChar (n % 10)] := by
  by_cases h : n < 10
  · rw [if_pos h]
    unfold natDigits natDigitsAux
    rw [if_pos h]
  · rw [if_neg h]
    show natDigitsAux (n + 1) n = natDigitsAux (n / 10 + 1) (n / 10) ++ [digitChar (n % 10)]
    have hdiv : n / 10 < n := Nat.div_lt_self (by omega) (by omega)
    have hstep : natDigitsAux (n + 1) n = natDigitsAux n (n / 10) ++ [digitChar (n % 10)] := by
      simp only [natDigitsAux, h, if_false]
    rw [hstep, natDigitsAux_congr n (n / 10 + 1) (n / 10) (by omega) (by omega)]

theorem digitChar_isDigit {d : Nat} (h : d < 10) : (digitChar d).isDigit = true := by
  interval_cases d <;> decide

theorem digitChar_toNat {d : Nat} (h : d < 10) : (digitChar d).toNat = 48 + d := by
  interval_cases d <;> decide

theorem natDigits_ne_nil (n : Nat) : natDigits n ≠ [] := by
  rw [natDigits_eq]
  by_cases h : n < 10 <;> simp [h]

theorem natDigits_all_digit (n : Nat) : ∀ c ∈ natDigits n, c.isDigit = true := by
  induction n using Nat.strong_induction_on with
  | _ n ih =>
    intro c hc
    rw [natDigits_eq] at hc
    by_cases h : n < 10
    · rw [if_pos h] at hc
      simp at hc
      subst hc
      exact digitChar_isDigit h
    · rw [if_neg h] at hc
      have hdiv : n / 10 < n := Nat.div_lt_self (by omega) (by omega)
      rcases List.mem_append.mp hc with h1 | h1
      · exact ih _ hdiv c h1
      · simp at h1
        subst h1
        exact digitChar_isDigit (Nat.mod_lt _ (by omega))

theorem digitsVal_natDigits (n : Nat) : digitsVal (natDigits n) = n := by
  induction n using Nat.strong_induction_on with
  | _ n ih =>
    rw [natDigits_eq]
    by_cases h : n < 10
    · rw [if_pos h]
      show 0 * 10 + ((digitChar n).toNat - 48) = n
      rw [digitChar_toNat h]
      omega
    · rw [if_neg h]
      have hdiv : n / 10 < n := Nat.div_lt_self (by omega) (by omega)
      have hstep : digitsVal (natDigits (n / 10) ++ [digitChar (n % 10)])
          = digitsVal (natDigits (n / 10)) * 10 + ((digitChar (n % 10)).toNat - 48) := by
        unfold digitsVal
        rw [List.foldl_append]
        rfl
      rw [hstep, digitChar_toNat (Nat.mod_lt _ (by omega)), ih _ hdiv]
      omega

theorem parseNat_natDigits (n : Nat) : parseNat (natDigits n) = some n := by
  have h1 : (natDigits n).isEmpty = false := by
    cases hh : natDigits n with
    | nil => exact absurd hh (natDigits_ne_nil n)
    | cons a l => rfl
  have h2 : (natDigits n).all Char.isDigit = true :=
    List.all_eq_true.mpr (fun c hc => natDigits_all_digit n c hc)
  simp [parseNat, h1, h2, digitsVal_natDigits]

theorem isDigit_ne_dash {c : Char} (h : c.isDigit = true) : c ≠ '-' := by
  intro hc
  subst hc
  exact absurd h (by decide)

theorem isDigit_ne_dot {c : Char} (h : c.isDigit = true) : c ≠ '.' := by
  intro hc
  subst hc
  exact absurd h (by decide)

/-! ## Lemmas: splitting and joining on dots -/

theorem splitDot_cons (c : Char) (rest : List Char) :
    splitDot (c :: rest) = match splitDot rest with
      | [] => [[]]
      | g :: gs => if c = '.' then [] :: g :: gs else (c :: g) :: gs := rfl

theorem splitDot_ne_nil (cs : List Char) : splitDot cs ≠ [] := by
  cases cs with
  | nil => simp [splitDot]
  | cons c rest =>
    rw [splitDot_cons]
    cases h : splitDot rest with
    | nil => simp
    | cons g gs => by_cases hc : c = '.' <;> simp [hc]

theorem splitDot_append {x : List Char} (hx : '.' ∉ x) :
    ∀ {cs : List Char} {g : List Char} {gs : List (List Char)},
    splitDot cs = g :: gs → splitDot (x ++ cs) = (x ++ g) :: gs := by
  induction x with
  | nil =>
    intro cs g gs h
    simpa using h
  | cons c xr ih =>
    intro cs g gs h
    have hc : c ≠ '.' := by
      intro e
      exact hx (by simp [e])
    have hrec := ih (fun m => hx (by simp [m])) h
    rw [List.cons_append, splitDot_cons, hrec]
    simp [hc]

theorem splitDot_no_dot {x : List Char} (hx : '.' ∉ x) : splitDot x = [x] := by
  have h0 : splitDot [] = [] :: [] := rfl
  have := splitDot_append hx h0
  simpa using this

theorem intercalateDot_cons (x : List Char) {xs : List (List Char)} (h : xs ≠ []) :
    intercalateDot (x :: xs) = x ++ '.' :: intercalateDot xs := by
  cases xs with
  | nil => exact absurd rfl h
  | cons y ys => rfl

theorem splitDot_intercalate : ∀ {parts : List (List Char)}, parts ≠ [] →
    (∀ p ∈ parts, '.' ∉ p) → splitDot (intercalateDot parts) = parts := by
  intro parts
  induction parts with
  | nil => intro h; exact absurd rfl h
  | cons x xs ih =>
    intro _ hnd
    cases xs with
    | nil => exact splitDot_no_dot (hnd x (by simp))
    | cons y ys =>
      rw [intercalateDot_cons x (by simp)]
      have htail : splitDot (intercalateDot (y :: ys)) = y :: ys :=
        ih (by simp) (fun p hp => hnd p (by simp [hp]))
      have hdot : splitDot ('.' :: intercalateDot (y :: ys)) = [] :: y :: ys := by
        rw [splitDot_cons, htail]
        simp
      have := splitDot_append (hnd x (by simp)) hdot
      simpa using this

/-! ## Lemmas: dash stripping and the token grammar -/

theorem stripDashes_append (a b : List Char) :
    stripDashes (a ++ b) = stripDashes a ++ stripDashes b :=
  List.filter_append _ _

theorem stripDashes_natDigits (n : Nat) : stripDashes (natDigits n) = natDigits n := by
  unfold stripDashes
  rw [List.filter_eq_self]
  intro c hc
  simp [isDigit_ne_dash (natDigits_all_digit n c hc)]

theorem stripDashes_renderElem (e : SortElem) : stripDashes (renderElem e) = natDigits e.id := by
  unfold renderElem
  cases e.desc
  · simpa using stripDashes_natDigits e.id
  · rw [stripDashes_append, stripDashes_natDigits]
    rfl

theorem renderElem_ne_nil (e : SortElem) : renderElem e ≠ [] := by
  unfold renderElem
  cases e.desc <;> simp [natDigits_ne_nil]

theorem no_dot_natDigits (n : Nat) : '.' ∉ natDigits n := by
  intro h
  exact isDigit_ne_dot (natDigits_all_digit n _ h) rfl

theorem no_dot_renderElem (e : SortElem) : '.' ∉ renderElem e := by
  unfold renderElem
  cases e.desc
  · simpa using no_dot_natDigits e.id
  · intro h
    rcases List.mem_append.mp h with h1 | h1
    · simp at h1
    · exact no_dot_natDigits e.id h1

theorem renderElem_headDash (e : SortElem) :
    ((renderElem e).head? == some '-') = e.desc := by
  unfold renderElem
  cases hd : e.desc
  · cases hn : natDigits e.id with
    | nil => exact absurd hn (natDigits_ne_nil e.id)
    | cons c l =>
      have hne : c ≠ '-' := isDigit_ne_dash (natDigits_all_digit e.id c (by rw [hn]; simp))
      simp [hn, hne]
  · simp

theorem renderToken_data (elems : List SortElem) :
    (renderToken elems).data = intercalateDot (elems.map renderElem) := rfl

theorem renderToken_data_ne_nil {elems : List SortElem} (h : elems ≠ []) :
    (renderToken elems).data ≠ [] := by
  rw [renderToken_data]
  cases elems with
  | nil => exact absurd rfl h
  | cons e es =>
    cases es with
    | nil => simpa [intercalateDot] using renderElem_ne_nil e
    | cons y ys =>
      rw [List.map_cons, intercalateDot_cons _ (by simp)]
      simp [renderElem_ne_nil e]

theorem splitDot_renderToken {elems : List SortElem} (h : elems ≠ []) :
    splitDot (renderToken elems).data = elems.map renderElem := by
  rw [renderToken_data]
  apply splitDot_intercalate
  · simpa using h
  · intro p hp
    obtain ⟨e, _, rfl⟩ := List.mem_map.mp hp
    exact no_dot_renderElem e

theorem stripDashes_intercalate : ∀ parts : List (List Char),
    stripDashes (intercalateDot parts) = intercalateDot (parts.map stripDashes) := by
  intro parts
  induction parts with
  | nil => rfl
  | cons x xs ih =>
    cases xs with
    | nil => rfl
    | cons y ys =>
      have h1 : intercalateDot (x :: y :: ys) = x ++ '.' :: intercalateDot (y :: ys) :=
        intercalateDot_cons x (by simp)
      have h2 : intercalateDot (stripDashes x :: (y :: ys).map stripDashes)
          = stripDashes x ++ '.' :: intercalateDot ((y :: ys).map stripDashes) :=
        intercalateDot_cons _ (by simp)
      rw [List.map_cons, h1, h2, stripDashes_append]
      congr 1
      have hdot : stripDashes ('.' :: intercalateDot (y :: ys))
          = '.' :: stripDashes (intercalateDot (y :: ys)) := by
        simp [stripDashes]
      rw [hdot, ih]

theorem parseAll_natDigits (ids : List Nat) : parseAll (ids.map natDigits) = some ids := by
  induction ids with
  | nil => rfl
  | cons i is ih => simp [parseAll, parseNat_natDigits, ih]

theorem parseCols_renderToken {elems : List SortElem} (h : elems ≠ []) :
    parseCols (renderToken elems) = some (elems.map SortElem.id) := by
  unfold parseCols
  rw [renderToken_data, stripDashes_intercalate]
  have hmap : (elems.map renderElem).map stripDashes
      = (elems.map SortElem.id).map natDigits := by
    rw [List.map_map, List.map_map]
    exact List.map_congr_left (fun e _ => stripDashes_renderElem e)
  rw [hmap, splitDot_intercalate, parseAll_natDigits]
  · simpa using h
  · intro p hp
    obtain ⟨i, _, rfl⟩ := List.mem_map.mp hp
    exact no_dot_natDigits i

/-! ## Lemmas: the parsed state of a rendered token -/

theorem init_render {qp : QueryParams} {oqp : String} {cid : Nat} {elems : List SortElem}
    (hne : elems ≠ []) (hq : dictGet qp oqp = some (QueryValue.str (renderToken elems))) :
    SmartOrder.init qp cid oqp
      = some ⟨qp, cid, oqp, some (renderToken elems), elems.map SortElem.id⟩ := by
  unfold SmartOrder.init
  rw [hq]
  have h1 : (renderToken elems).data.isEmpty = false := by
    cases hh : (renderToken elems).data with
    | nil => exact absurd hh (renderToken_data_ne_nil hne)
    | cons a l => rfl
  simp [h1, parseCols_renderToken hne]

theorem renderElem_true {e : SortElem} (h : e.desc = true) :
    renderElem e = '-' :: natDigits e.id := by
  unfold renderElem
  rw [h]
  rfl

theorem renderElem_false {e : SortElem} (h : e.desc = false) :
    renderElem e = natDigits e.id := by
  unfold renderElem
  rw [h]
  rfl

theorem removeColList_cons (cid : Nat) (e : SortElem) (rest : List (List Char)) :
    removeColList cid (renderElem e :: rest)
      = (removeColList cid rest).map (fun r => if e.id = cid then r else renderElem e :: r) := by
  show (parseNat (stripDashes (renderElem e))).bind
      (fun c => (removeColList cid rest).map (fun r => if c = cid then r else renderElem e :: r)) = _
  rw [stripDashes_renderElem, parseNat_natDigits]
  rfl

theorem reverseColList_cons (cid : Nat) (e : SortElem) (rest : List (List Char)) :
    reverseColList cid (renderElem e :: rest)
      = (reverseColList cid rest).map (fun r =>
          if e.id = cid then
            (if e.desc then natDigits e.id :: r
             else ('-' :: natDigits e.id) :: r)
          else renderElem e :: r) := by
  show (parseNat (stripDashes (renderElem e))).bind
      (fun c => (reverseColList cid rest).map (fun r =>
        if c = cid then
          (if (renderElem e).head? == some '-' then stripDashes (renderElem e) :: r
           else ('-' :: stripDashes (renderElem e)) :: r)
        else renderElem e :: r)) = _
  rw [stripDashes_renderElem, parseNat_natDigits]
  simp only [renderElem_headDash]
  rfl

theorem isReverseList_cons (cid : Nat) (e : SortElem) (rest : List (List Char)) :
    isReverseList cid (renderElem e :: rest)
      = if e.id == cid && e.desc then some true else isReverseList cid rest := by
  show (parseNat (stripDashes (renderElem e))).bind
      (fun c => if c == cid && ((renderElem e).head? == some '-') then some true
        else isReverseList cid rest) = _
  rw [stripDashes_renderElem, parseNat_natDigits]
  show (if e.id == cid && ((renderElem e).head? == some '-') then some true
      else isReverseList cid rest) = _
  rw [renderElem_headDash]

theorem removeColList_render (cid : Nat) : ∀ elems : List SortElem,
    removeColList cid (elems.map renderElem)
      = some ((elems.filter (fun e => e.id ≠ cid)).map renderElem) := by
  intro elems
  induction elems with
  | nil => rfl
  | cons e es ih =>
    rw [List.map_cons, removeColList_cons, ih]
    by_cases h : e.id = cid
    · simp [List.filter_cons, h]
    · simp [List.filter_cons, h]

theorem reverseColList_render (cid : Nat) : ∀ elems : List SortElem,
    reverseColList cid (elems.map renderElem)
      = some ((toggleElems cid elems).map renderElem) := by
  intro elems
  induction elems with
  | nil => rfl
  | cons e es ih =>
    rw [List.map_cons, reverseColList_cons, ih]
    have hT : toggleElems cid (e :: es)
        = (if e.id = cid then (⟨e.id, !e.desc⟩ : SortElem) else e) :: toggleElems cid es := by
      simp [toggleElems]
    rw [hT, List.map_cons]
    by_cases h : e.id = cid
    · cases hd : e.desc
      · simp [h, hd, renderElem]
      · simp [h, hd, renderElem]
    · simp [h]

theorem isReverseList_not_mem {cid : Nat} : ∀ {elems : List SortElem},
    cid ∉ elems.map SortElem.id → isReverseList cid (elems.map renderElem) = some false := by
  intro elems
  induction elems with
  | nil => intro _; rfl
  | cons e es ih =>
    intro h
    rw [List.map_cons, isReverseList_cons]
    have h1 : (e.id == cid) = false := by
      simp only [beq_eq_false_iff_ne]
      intro hh
      exact h (by simp [hh])
    rw [h1, Bool.false_and, if_neg (by simp)]
    exact ih (fun hm => h (by simp [hm]))

theorem isReverseList_mem {cid : Nat} : ∀ {elems : List SortElem} {e : SortElem},
    (elems.map SortElem.id).Nodup → e ∈ elems → e.id = cid →
    isReverseList cid (elems.map renderElem) = some e.desc := by
  intro elems
  induction elems with
  | nil => intro e _ he _; simp at he
  | cons a es ih =>
    intro e hnd he hid
    rw [List.map_cons] at hnd
    have hnd2 := List.nodup_cons.mp hnd
    rw [List.map_cons, isReverseList_cons]
    by_cases ha : a.id = cid
    · have hnotin : cid ∉ es.map SortElem.id := by
        rw [← ha]
        exact hnd2.1
      have hea : e = a := by
        rcases List.mem_cons.mp he with h1 | h1
        · exact h1
        · exact absurd (hid ▸ List.mem_map_of_mem SortElem.id h1) hnotin
      rw [hea]
      have hbeq : (a.id == cid) = true := by simpa using ha
      rw [hbeq, Bool.true_and]
      cases hd : a.desc
      · rw [if_neg (by simp [hd]), isReverseList_not_mem hnotin]
      · rw [if_pos (by simp [hd])]
    · have hbeq : (a.id == cid) = false := by simpa using ha
      rw [hbeq, Bool.false_and, if_neg (by simp)]
      have he2 : e ∈ es := by
        rcases List.mem_cons.mp he with h2 | h2
        · exact absurd (h2 ▸ hid) ha
        · exact h2
      exact ih hnd2.2 he2 hid

theorem isReverseList_isSome {cid : Nat} : ∀ {elems : List SortElem},
    cid ∈ elems.map SortElem.id →
    ∃ b, isReverseList cid (elems.map renderElem) = some b := by
  intro elems
  induction elems with
  | nil => intro h; simp at h
  | cons a es ih =>
    intro h
    rw [List.map_cons, isReverseList_cons]
    by_cases hc : (a.id == cid && a.desc) = true
    · exact ⟨true, by rw [if_pos hc]⟩
    · rw [if_neg hc]
      by_cases hm : cid ∈ es.map SortElem.id
      · exact ih hm
      · exact ⟨false, isReverseList_not_mem hm⟩

/-! ## Lemmas: the query-string codec -/

theorem collapseValue_isSome {v : QueryValue} (h : v ≠ QueryValue.list []) :
    ∃ s, collapseValue v = some s := by
  cases v with
  | str s => exact ⟨s, rfl⟩
  | list l =>
    cases l with
    | nil => exact absurd rfl h
    | cons a t => exact ⟨a, rfl⟩

theorem collapseAll_isSome : ∀ {qp : QueryParams},
    (∀ p ∈ qp, p.2 ≠ QueryValue.list []) → ∃ base, collapseAll qp = some base := by
  intro qp
  induction qp with
  | nil => exact fun _ => ⟨[], rfl⟩
  | cons p rest ih =>
    intro h
    obtain ⟨k0, v0⟩ := p
    obtain ⟨r, hr⟩ := ih (fun q hq => h q (by simp [hq]))
    obtain ⟨s, hs⟩ := collapseValue_isSome (h (k0, v0) (by simp))
    exact ⟨(k0, some s) :: r, by simp [collapseAll, hs, hr]⟩

theorem collapseAll_mem : ∀ {qp : QueryParams} {base : List (String × Option String)},
    collapseAll qp = some base → ∀ {k : String} {v : QueryValue}, (k, v) ∈ qp →
    ∃ s, collapseValue v = some s ∧ (k, some s) ∈ base := by
  intro qp
  induction qp with
  | nil =>
    intro base _ k v hm
    simp at hm
  | cons p rest ih =>
    obtain ⟨k0, v0⟩ := p
    intro base h k v hm
    cases hs : collapseValue v0 with
    | none => rw [collapseAll, hs] at h; simp at h
    | some s0 =>
      cases hr : collapseAll rest with
      | none => rw [collapseAll, hs, hr] at h; simp at h
      | some r =>
        rw [collapseAll, hs, hr] at h
        simp only [Option.bind, Option.map, Option.some.injEq] at h
        rcases List.mem_cons.mp hm with he | he
        · obtain ⟨hk, hv⟩ := Prod.mk.injEq .. ▸ he
          refine ⟨s0, ?_, ?_⟩
          · rw [hv]
            exact hs
          · rw [← h, hk]
            simp
        · obtain ⟨s, hsv, hmem⟩ := ih hr he
          exact ⟨s, hsv, by rw [← h]; simp [hmem]⟩

theorem mem_updOne_of_ne {q : List (String × Option String)} {k w : String}
    {v x : Option String} (hne : w ≠ k) (hm : (k, v) ∈ q) : (k, v) ∈ updOne q w x := by
  unfold updOne
  by_cases ha : q.any (fun p => p.1 == w)
  · rw [if_pos ha]
    refine List.mem_map.mpr ⟨(k, v), hm, ?_⟩
    rw [if_neg (by simp [hne.symm])]
  · rw [if_neg ha]
    exact List.mem_append_left _ hm

theorem mem_dictUpdate_of_ne : ∀ {upd : List (String × Option String)}
    {q : List (String × Option String)} {k : String} {v : Option String},
    (∀ w ∈ upd, w.1 ≠ k) → (k, v) ∈ q → (k, v) ∈ dictUpdate q upd := by
  intro upd
  induction upd with
  | nil => intro q k v _ hm; exact hm
  | cons w ws ih =>
    intro q k v hw hm
    show (k, v) ∈ dictUpdate (updOne q w.1 w.2) ws
    exact ih (fun u hu => hw u (by simp [hu]))
      (mem_updOne_of_ne (hw w (by simp)) hm)

theorem mem_updOne_self (q : List (String × Option String)) (k : String) (v : Option String) :
    (k, v) ∈ updOne q k v := by
  unfold updOne
  by_cases ha : q.any (fun p => p.1 == k)
  · rw [if_pos ha]
    obtain ⟨p, hp, hpk⟩ := List.any_eq_true.mp ha
    refine List.mem_map.mpr ⟨p, hp, ?_⟩
    rw [if_pos hpk]
  · rw [if_neg ha]
    exact List.mem_append_right _ (by simp)

theorem mem_filterMap_pairs {merged : List (String × Option String)} {k : String} {v : String}
    (hm : (k, some v) ∈ merged) :
    (k, v) ∈ merged.filterMap (fun p => p.2.map (fun x => (p.1, x))) :=
  List.mem_filterMap.mpr ⟨(k, some v), hm, rfl⟩

theorem codec_override_mem {qp : QueryParams} (k : String) (v : String)
    (h : ∀ p ∈ qp, p.2 ≠ QueryValue.list []) :
    ∃ pairs, updated_query qp [(k, some v)] = some pairs ∧ (k, v) ∈ pairs := by
  obtain ⟨base, hbase⟩ := collapseAll_isSome h
  refine ⟨(dictUpdate base [(k, some v)]).filterMap (fun p => p.2.map (fun x => (p.1, x))), ?_, ?_⟩
  · rw [updated_query, hbase]
    rfl
  · exact mem_filterMap_pairs (show ((k, some v) : String × Option String) ∈ updOne base k (some v)
      from mem_updOne_self base k (some v))

/-! ## Lemmas: the operations on a rendered token -/

theorem renderToken_cons {e : SortElem} {elems : List SortElem} (h : elems ≠ []) :
    renderToken (e :: elems)
      = String.mk (renderElem e ++ '.' :: intercalateDot (elems.map renderElem)) := by
  unfold renderToken
  rw [List.map_cons, intercalateDot_cons _ (by simpa using h)]

theorem filter_ne_nil_of_nodup {elems : List SortElem} {cid : Nat}
    (hnd : (elems.map SortElem.id).Nodup) (hlen : 1 < elems.length) :
    elems.filter (fun e => e.id ≠ cid) ≠ [] := by
  cases elems with
  | nil => simp at hlen
  | cons a es =>
    cases es with
    | nil => simp at hlen
    | cons b rest =>
      rw [List.map_cons, List.map_cons] at hnd
      have hnd2 := List.nodup_cons.mp hnd
      by_cases h : a.id = cid
      · have hb : b.id ≠ cid := by
          intro hbe
          exact hnd2.1 (by simp [← h, hbe])
        intro hEq
        have hmem : b ∈ (a :: b :: rest).filter (fun e => e.id ≠ cid) :=
          List.mem_filter.mpr ⟨by simp, by simpa using hb⟩
        rw [hEq] at hmem
        exact absurd hmem (List.not_mem_nil b)
      · intro hEq
        have hmem : a ∈ (a :: b :: rest).filter (fun e => e.id ≠ cid) :=
          List.mem_filter.mpr ⟨by simp, by simpa using h⟩
        rw [hEq] at hmem
        exact absurd hmem (List.not_mem_nil a)

theorem get_remove_render (qp : QueryParams) (oqp : String) (cid : Nat)
    (elems : List SortElem) (hne : elems ≠ []) :
    (SmartOrder.mk qp cid oqp (some (renderToken elems)) (elems.map SortElem.id)).get_remove_sort_by
      = get_url_with_query_params qp
          [(oqp, some (renderToken (elems.filter (fun e => e.id ≠ cid))))] := by
  show (removeColList cid (splitDot (renderToken elems).data)).bind
      (fun nq => get_url_with_query_params qp [(oqp, some (String.mk (intercalateDot nq)))]) = _
  rw [splitDot_renderToken hne, removeColList_render]
  rfl

theorem get_reverse_render (qp : QueryParams) (oqp : String) (cid : Nat)
    (elems : List SortElem) (hne : elems ≠ []) :
    (SmartOrder.mk qp cid oqp (some (renderToken elems)) (elems.map SortElem.id)).get_reverse_sort_by
      = get_url_with_query_params qp [(oqp, some (renderToken (toggleElems cid elems)))] := by
  show (reverseColList cid (splitDot (renderToken elems).data)).bind
      (fun nq => get_url_with_query_params qp [(oqp, some (String.mk (intercalateDot nq)))]) = _
  rw [splitDot_renderToken hne, reverseColList_render]
  rfl

theorem get_add_render_prepend (qp : QueryParams) (oqp : String) (cid : Nat)
    (elems : List SortElem) (hne : elems ≠ []) (hnot : cid ∉ elems.map SortElem.id) :
    (SmartOrder.mk qp cid oqp (some (renderToken elems)) (elems.map SortElem.id)).get_add_sort_by
      = get_url_with_query_params qp
          [(oqp, some (renderToken (⟨cid, false⟩ :: elems)))] := by
  have hcont : ((elems.map SortElem.id).contains cid) = false := by simpa using hnot
  have hdata : (renderToken elems).data.isEmpty = false := by
    cases hh : (renderToken elems).data with
    | nil => exact absurd hh (renderToken_data_ne_nil hne)
    | cons a l => rfl
  unfold SmartOrder.get_add_sort_by SmartOrder.is_ordered
  simp only [hcont, Bool.not_false, if_true, hdata]
  rw [renderToken_cons hne]
  rfl

theorem get_add_render_empty_none (qp : QueryParams) (oqp : String) (cid : Nat) :
    (SmartOrder.mk qp cid oqp none []).get_add_sort_by
      = get_url_with_query_params qp [(oqp, some (renderToken [⟨cid, false⟩]))] := rfl

theorem get_add_render_empty_str (qp : QueryParams) (oqp : String) (cid : Nat) :
    (SmartOrder.mk qp cid oqp (some ("")) []).get_add_sort_by
      = get_url_with_query_params qp [(oqp, some (renderToken [⟨cid, false⟩]))] := rfl

theorem get_add_render_only (qp : QueryParams) (oqp : String) (cid : Nat) (d : Bool) :
    (SmartOrder.mk qp cid oqp (some (renderToken [⟨cid, d⟩]))
        (([⟨cid, d⟩] : List SortElem).map SortElem.id)).get_add_sort_by
      = (SmartOrder.mk qp cid oqp (some (renderToken [⟨cid, d⟩]))
          (([⟨cid, d⟩] : List SortElem).map SortElem.id)).get_reverse_sort_by := by
  unfold SmartOrder.get_add_sort_by SmartOrder.is_ordered
  simp

theorem get_add_render_multi (qp : QueryParams) (oqp : String) (cid : Nat)
    (elems : List SortElem) (hnd : (elems.map SortElem.id).Nodup)
    (hlen : 1 < elems.length) (hmem : cid ∈ elems.map SortElem.id) :
    (SmartOrder.mk qp cid oqp (some (renderToken elems)) (elems.map SortElem.id)).get_add_sort_by
      = get_url_with_query_params qp
          [(oqp, some (renderToken (⟨cid, promoteDesc elems cid⟩
              :: elems.filter (fun e => e.id ≠ cid))))] := by
  obtain ⟨e0, rest, rfl⟩ : ∃ e0 rest, elems = e0 :: rest := by
    cases elems with
    | nil => simp at hlen
    | cons a l => exact ⟨a, l, rfl⟩
  have hne : (e0 :: rest) ≠ [] := by simp
  have hcont : (((e0 :: rest).map SortElem.id).contains cid) = true := by simpa using hmem
  have hlen2 : 1 < ((e0 :: rest).map SortElem.id).length := by simpa using hlen
  have hsplit : splitDot (renderToken (e0 :: rest)).data = (e0 :: rest).map renderElem :=
    splitDot_renderToken hne
  have hfil : (e0 :: rest).filter (fun e => e.id ≠ cid) ≠ [] :=
    filter_ne_nil_of_nodup hnd hlen
  unfold SmartOrder.get_add_sort_by SmartOrder.is_ordered SmartOrder.is_reverse
  simp only [hcont, Bool.not_true, Bool.false_eq_true, if_false, hlen2, if_true,
    Option.some_bind, hsplit, removeColList_render]
  by_cases hh : e0.id = cid
  · have hrev : isReverseList cid ((e0 :: rest).map renderElem) = some e0.desc :=
      isReverseList_mem hnd (by simp) hh
    rw [List.map_cons] at hrev
    have hbeq : (e0.id == cid) = true := by simpa using hh
    cases hd : e0.desc
    · rw [hd] at hrev
      have hpd : promoteDesc (e0 :: rest) cid = true := by
        simp [promoteDesc, hh, hd]
      simp only [hrev, Option.some_bind, List.map_cons, List.head?_cons, hbeq,
        Bool.not_false, Bool.and_true, if_true, hpd]
      rw [renderToken_cons hfil, renderElem_true (show (SortElem.mk cid true).desc = true from rfl)]
    · rw [hd] at hrev
      have hpd : promoteDesc (e0 :: rest) cid = false := by
        simp [promoteDesc, hh, hd]
      simp only [hrev, Option.some_bind, List.map_cons, List.head?_cons, hbeq,
        Bool.not_true, Bool.false_and, Bool.false_eq_true, if_false, hpd]
      rw [renderToken_cons hfil, renderElem_false (show (SortElem.mk cid false).desc = false from rfl)]
  · obtain ⟨b, hrev⟩ := isReverseList_isSome hmem
    rw [List.map_cons] at hrev
    have hbeq : (e0.id == cid) = false := by simpa using hh
    have hpd : promoteDesc (e0 :: rest) cid = false := by
      simp [promoteDesc, hh]
    simp only [hrev, Option.some_bind, List.map_cons, List.head?_cons, hbeq,
      Bool.and_false, Bool.false_eq_true, if_false, hpd]
    rw [renderToken_cons hfil, renderElem_false (show (SortElem.mk cid false).desc = false from rfl)]

theorem toggleElems_toggleElems (cid : Nat) (elems : List SortElem) :
    toggleElems cid (toggleElems cid elems) = elems := by
  unfold toggleElems
  rw [List.map_map]
  have h : ∀ e : SortElem,
      ((fun e : SortElem => if e.id = cid then (⟨e.id, !e.desc⟩ : SortElem) else e) ∘
       (fun e : SortElem => if e.id = cid then (⟨e.id, !e.desc⟩ : SortElem) else e)) e = e := by
    intro e
    cases e with
    | mk i dsc => by_cases h : i = cid <;> simp [h]
  rw [List.map_congr_left (fun e _ => h e)]
  exact List.map_id' elems

theorem toggleElems_map_id (cid : Nat) (elems : List SortElem) :
    (toggleElems cid elems).map SortElem.id = elems.map SortElem.id := by
  unfold toggleElems
  rw [List.map_map]
  apply List.map_congr_left
  intro e _
  by_cases h : e.id = cid <;> simp [h]

theorem init_absent {qp : QueryParams} {oqp : String} {cid : Nat}
    (hq : dictGet qp oqp = none) :
    SmartOrder.init qp cid oqp = some (SmartOrder.mk qp cid oqp none []) := by
  unfold SmartOrder.init
  rw [hq]

theorem init_empty_str {qp : QueryParams} {oqp : String} {cid : Nat}
    (hq : dictGet qp oqp = some (QueryValue.str (""))) :
    SmartOrder.init qp cid oqp = some (SmartOrder.mk qp cid oqp (some ("")) []) := by
  unfold SmartOrder.init
  rw [hq]
  rfl

/-! ## The claims -/

/-- Claim C1: for every well-formed sort token with more than one column
that contains column_id, get_add_sort_by removes column_id from its
position and re-inserts it as the new primary column in front of the
remaining columns in their original order; the re-inserted column is
descending exactly when column_id was previously the first column and not
reversed (promoteDesc), and ascending otherwise. -/
theorem claim1_add_promotes_primary (qp : QueryParams) (oqp : String) (cid : Nat)
    (elems : List SortElem) (o : SmartOrder)
    (hwf : WFToken elems) (hlen : 1 < elems.length) (hmem : cid ∈ elems.map SortElem.id)
    (hq : dictGet qp oqp = some (QueryValue.str (renderToken elems)))
    (ho : SmartOrder.init qp cid oqp = some o) :
    o.get_add_sort_by = get_url_with_query_params qp
      [(oqp, some (renderToken ((⟨cid, promoteDesc elems cid⟩ : SortElem)
          :: elems.filter (fun e => e.id ≠ cid))))] := by
  have hne : elems ≠ [] := by
    intro h
    rw [h] at hlen
    simp at hlen
  rw [init_render hne hq] at ho
  obtain rfl := Option.some.inj ho
  exact get_add_render_multi qp oqp cid elems hwf.2 hlen hmem

/-- Witness for C1 at the two scenario tokens of the spec: token 1.-2 with
column 1 yields -1.-2, and token 2.-1 with column 1 yields 1.2. -/
theorem claim1_witness :
    (SmartOrder.mk [(("o"), QueryValue.str ("1.-2"))] 1 ("o") (some ("1.-2")) [1, 2]).get_add_sort_by
        = some ("?o=-1.-2")
    ∧ (SmartOrder.mk [(("o"), QueryValue.str ("2.-1"))] 1 ("o") (some ("2.-1")) [2, 1]).get_add_sort_by
        = some ("?o=1.2") := by
  constructor
  · exact (claim1_add_promotes_primary [(("o"), QueryValue.str ("1.-2"))] ("o") 1
      [⟨1, false⟩, ⟨2, true⟩]
      (SmartOrder.mk [(("o"), QueryValue.str ("1.-2"))] 1 ("o") (some ("1.-2")) [1, 2])
      ⟨by decide, by decide⟩ (by decide) (by decide) (by decide) (by decide)).trans (by decide)
  · exact (claim1_add_promotes_primary [(("o"), QueryValue.str ("2.-1"))] ("o") 1
      [⟨2, false⟩, ⟨1, true⟩]
      (SmartOrder.mk [(("o"), QueryValue.str ("2.-1"))] 1 ("o") (some ("2.-1")) [2, 1])
      ⟨by decide, by decide⟩ (by decide) (by decide) (by decide) (by decide)).trans (by decide)

/-- Claim C2: on a sort token consisting of exactly the one column
column_id, get_add_sort_by equals get_reverse_sort_by (the only-column
branch delegates to reverse), and the direction of the single column is
toggled. -/
theorem claim2_add_single_toggles (qp : QueryParams) (oqp : String) (cid : Nat) (d : Bool)
    (o : SmartOrder) (_hid : 1 ≤ cid)
    (hq : dictGet qp oqp = some (QueryValue.str (renderToken [⟨cid, d⟩])))
    (ho : SmartOrder.init qp cid oqp = some o) :
    o.get_add_sort_by = o.get_reverse_sort_by
    ∧ o.get_reverse_sort_by = get_url_with_query_params qp
        [(oqp, some (renderToken [⟨cid, !d⟩]))] := by
  rw [init_render (by simp) hq] at ho
  obtain rfl := Option.some.inj ho
  have h2 := get_reverse_render qp oqp cid [⟨cid, d⟩] (by simp)
  have ht : toggleElems cid [⟨cid, d⟩] = [⟨cid, !d⟩] := by simp [toggleElems]
  constructor
  · exact get_add_render_only qp oqp cid d
  · rw [h2, ht]

/-- Witness for C2: single ascending token 1 clicked again becomes -1 via
the reverse delegation, and single descending token -1 becomes 1. -/
theorem claim2_witness :
    (SmartOrder.mk [(("o"), QueryValue.str ("1"))] 1 ("o") (some ("1")) [1]).get_add_sort_by
        = (SmartOrder.mk [(("o"), QueryValue.str ("1"))] 1 ("o") (some ("1")) [1]).get_reverse_sort_by
    ∧ (SmartOrder.mk [(("o"), QueryValue.str ("1"))] 1 ("o") (some ("1")) [1]).get_add_sort_by
        = some ("?o=-1")
    ∧ (SmartOrder.mk [(("o"), QueryValue.str ("-1"))] 1 ("o") (some ("-1")) [1]).get_add_sort_by
        = some ("?o=1") := by
  have h := claim2_add_single_toggles [(("o"), QueryValue.str ("1"))] ("o") 1 false
    (SmartOrder.mk [(("o"), QueryValue.str ("1"))] 1 ("o") (some ("1")) [1])
    (by decide) (by decide) (by decide)
  have hr := claim2_add_single_toggles [(("o"), QueryValue.str ("-1"))] ("o") 1 true
    (SmartOrder.mk [(("o"), QueryValue.str ("-1"))] 1 ("o") (some ("-1")) [1])
    (by decide) (by decide) (by decide)
  exact ⟨h.1, h.1.trans (h.2.trans (by decide)), hr.1.trans (hr.2.trans (by decide))⟩

/-- Claim C3: when column_id does not occur in the current sort token,
get_add_sort_by prepends column_id ascending to an existing token, and
produces column_id alone when no token exists (absent or empty). -/
theorem claim3_add_not_ordered (qp : QueryParams) (oqp : String) (cid : Nat) :
    (∀ (elems : List SortElem) (o : SmartOrder), elems ≠ [] → WFToken elems →
      cid ∉ elems.map SortElem.id →
      dictGet qp oqp = some (QueryValue.str (renderToken elems)) →
      SmartOrder.init qp cid oqp = some o →
      o.get_add_sort_by = get_url_with_query_params qp
        [(oqp, some (renderToken ((⟨cid, false⟩ : SortElem) :: elems)))])
    ∧ (∀ o : SmartOrder,
      (dictGet qp oqp = none ∨ dictGet qp oqp = some (QueryValue.str (""))) →
      SmartOrder.init qp cid oqp = some o →
      o.get_add_sort_by = get_url_with_query_params qp
        [(oqp, some (renderToken [⟨cid, false⟩]))]) := by
  constructor
  · intro elems o hne hwf hnot hq ho
    rw [init_render hne hq] at ho
    obtain rfl := Option.some.inj ho
    exact get_add_render_prepend qp oqp cid elems hne hnot
  · intro o hq ho
    rcases hq with hq | hq
    · rw [init_absent hq] at ho
      obtain rfl := Option.some.inj ho
      exact get_add_render_empty_none qp oqp cid
    · rw [init_empty_str hq] at ho
      obtain rfl := Option.some.inj ho
      exact get_add_render_empty_str qp oqp cid

/-- Witness for C3: the empty token with column 1 yields token 1, and the
token 3.2 (column 1 not present) becomes 1.3.2. -/
theorem claim3_witness :
    (SmartOrder.mk [(("o"), QueryValue.str (""))] 1 ("o") (some ("")) []).get_add_sort_by
        = some ("?o=1")
    ∧ (SmartOrder.mk [(("o"), QueryValue.str ("3.2"))] 1 ("o") (some ("3.2")) [3, 2]).get_add_sort_by
        = some ("?o=1.3.2") := by
  constructor
  · exact (((claim3_add_not_ordered [(("o"), QueryValue.str (""))] ("o") 1).2
      (SmartOrder.mk [(("o"), QueryValue.str (""))] 1 ("o") (some ("")) [])
      (Or.inr (by decide)) (by decide))).trans (by decide)
  · exact (((claim3_add_not_ordered [(("o"), QueryValue.str ("3.2"))] ("o") 1).1
      [⟨3, false⟩, ⟨2, false⟩]
      (SmartOrder.mk [(("o"), QueryValue.str ("3.2"))] 1 ("o") (some ("3.2")) [3, 2])
      (by decide) ⟨by decide, by decide⟩ (by decide) (by decide) (by decide))).trans (by decide)

/-- Claim C4: get_reverse_sort_by toggles only the sign of the element
matching column_id (toggleElems), keeps all other elements and their
order, and applying it again to the resulting token restores the original
token. -/
theorem claim4_reverse_toggle_involutive (qp qp2 : QueryParams) (oqp : String) (cid : Nat)
    (elems : List SortElem) (o o2 : SmartOrder)
    (_hwf : WFToken elems) (hmem : cid ∈ elems.map SortElem.id)
    (hq : dictGet qp oqp = some (QueryValue.str (renderToken elems)))
    (ho : SmartOrder.init qp cid oqp = some o)
    (hq2 : dictGet qp2 oqp = some (QueryValue.str (renderToken (toggleElems cid elems))))
    (ho2 : SmartOrder.init qp2 cid oqp = some o2) :
    o.get_reverse_sort_by = get_url_with_query_params qp
      [(oqp, some (renderToken (toggleElems cid elems)))]
    ∧ o2.get_reverse_sort_by = get_url_with_query_params qp2
      [(oqp, some (renderToken elems))] := by
  have hne : elems ≠ [] := by
    intro h
    rw [h] at hmem
    simp at hmem
  have hne2 : toggleElems cid elems ≠ [] := by
    unfold toggleElems
    simpa using hne
  rw [init_render hne hq] at ho
  obtain rfl := Option.some.inj ho
  rw [init_render hne2 hq2] at ho2
  obtain rfl := Option.some.inj ho2
  refine ⟨get_reverse_render qp oqp cid elems hne, ?_⟩
  have h := get_reverse_render qp2 oqp cid (toggleElems cid elems) hne2
  rw [h, toggleElems_toggleElems]

/-- Witness for C4: reversing column 1 in 1.-2 gives -1.-2, and reversing
it again in -1.-2 restores 1.-2. -/
theorem claim4_witness :
    (SmartOrder.mk [(("o"), QueryValue.str ("1.-2"))] 1 ("o")
        (some ("1.-2")) [1, 2]).get_reverse_sort_by = some ("?o=-1.-2")
    ∧ (SmartOrder.mk [(("o"), QueryValue.str ("-1.-2"))] 1 ("o")
        (some ("-1.-2")) [1, 2]).get_reverse_sort_by = some ("?o=1.-2") := by
  have h := claim4_reverse_toggle_involutive [(("o"), QueryValue.str ("1.-2"))]
    [(("o"), QueryValue.str ("-1.-2"))] ("o") 1 [⟨1, false⟩, ⟨2, true⟩]
    (SmartOrder.mk [(("o"), QueryValue.str ("1.-2"))] 1 ("o") (some ("1.-2")) [1, 2])
    (SmartOrder.mk [(("o"), QueryValue.str ("-1.-2"))] 1 ("o") (some ("-1.-2")) [1, 2])
    ⟨by decide, by decide⟩ (by decide) (by decide) (by decide) (by decide) (by decide)
  exact ⟨h.1.trans (by decide), h.2.trans (by decide)⟩

/-- Claim C5 (amended): get_remove_sort_by strips the element matching
column_id and keeps the relative order of the rest; when the remainder is
empty the sort parameter is set to the empty string and therefore stays
present in the query string (it is not cleared, because only the None
sentinel is deleted by the codec). -/
theorem claim5_remove_strips (qp : QueryParams) (oqp : String) (cid : Nat)
    (elems : List SortElem) (o : SmartOrder)
    (_hwf : WFToken elems) (hmem : cid ∈ elems.map SortElem.id)
    (hq : dictGet qp oqp = some (QueryValue.str (renderToken elems)))
    (ho : SmartOrder.init qp cid oqp = some o) :
    o.get_remove_sort_by = get_url_with_query_params qp
      [(oqp, some (renderToken (elems.filter (fun e => e.id ≠ cid))))] := by
  have hne : elems ≠ [] := by
    intro h
    rw [h] at hmem
    simp at hmem
  rw [init_render hne hq] at ho
  obtain rfl := Option.some.inj ho
  exact get_remove_render qp oqp cid elems hne

/-- Counterexample for C5 as stated: removing the only sort column does
not clear the sort parameter; the resulting query string is the non-empty
?o= and the pair list still contains the key with an empty value. -/
theorem claim5_counterexample :
    (SmartOrder.init [(("o"), QueryValue.str ("1"))] 1 ("o")).bind SmartOrder.get_remove_sort_by
        = some ("?o=")
    ∧ updated_query [(("o"), QueryValue.str ("1"))] [(("o"), some (""))]
        = some [(("o"), (""))] := by
  exact ⟨by decide, by decide⟩

/-- Witness for C5 at scenario 5: token 1.-2.3 with column 2 yields 1.3. -/
theorem claim5_witness :
    (SmartOrder.mk [(("o"), QueryValue.str ("1.-2.3"))] 2 ("o")
        (some ("1.-2.3")) [1, 2, 3]).get_remove_sort_by = some ("?o=1.3") := by
  exact (claim5_remove_strips [(("o"), QueryValue.str ("1.-2.3"))] ("o") 2
    [⟨1, false⟩, ⟨2, true⟩, ⟨3, false⟩]
    (SmartOrder.mk [(("o"), QueryValue.str ("1.-2.3"))] 2 ("o") (some ("1.-2.3")) [1, 2, 3])
    ⟨by decide, by decide⟩ (by decide) (by decide) (by decide)).trans (by decide)

/-- Claim C6 (amended): the query-string builder is total as soon as no
current value is an empty sequence; on such mappings it returns a query
string for every overrides mapping.  (On an empty-sequence value the
indexing value[0] raises, so it is not total over any mapping.) -/
theorem claim6_codec_total_on_nonempty_values (qp : QueryParams)
    (nqd : List (String × Option String))
    (h : ∀ p ∈ qp, p.2 ≠ QueryValue.list []) :
    ∃ s, get_url_with_query_params qp nqd = some s := by
  obtain ⟨base, hb⟩ := collapseAll_isSome h
  refine ⟨String.singleton '?' ++ urlencode
    ((dictUpdate base nqd).filterMap (fun p => p.2.map (fun v => (p.1, v)))), ?_⟩
  rw [get_url_with_query_params, updated_query, hb]
  rfl

/-- Counterexample for C6 as stated: on the mapping sending a to the
empty sequence the builder fails (value[0] raises IndexError, modelled by
none), so it is not total over every query-parameter mapping. -/
theorem claim6_counterexample :
    get_url_with_query_params [(("a"), QueryValue.list [])] [] = none := rfl

/-- Witness for C6 on a mapping with a string value and a non-empty list
value, with one override and one None sentinel. -/
theorem claim6_witness :
    ∃ s, get_url_with_query_params
      [(("a"), QueryValue.str ("1")), (("b"), QueryValue.list [("x")])]
      [(("a"), none), (("c"), some ("3"))] = some s :=
  claim6_codec_total_on_nonempty_values
    [(("a"), QueryValue.str ("1")), (("b"), QueryValue.list [("x")])]
    [(("a"), none), (("c"), some ("3"))] (by decide)

/-- Claim C7: every key of the current mapping that is not named in the
overrides survives into the produced query pairs with its current value,
a sequence value being collapsed to its first element (collapseValue). -/
theorem claim7_codec_preserves_other_keys (qp : QueryParams)
    (nqd : List (String × Option String)) (pairs : List (String × String))
    (k : String) (v : QueryValue)
    (hres : updated_query qp nqd = some pairs)
    (hmem : (k, v) ∈ qp)
    (hover : ∀ w ∈ nqd, w.1 ≠ k) :
    ∃ s, collapseValue v = some s ∧ (k, s) ∈ pairs := by
  cases hb : collapseAll qp with
  | none =>
    rw [updated_query, hb] at hres
    simp at hres
  | some base =>
    rw [updated_query, hb] at hres
    simp only [Option.map_some'] at hres
    obtain ⟨s, hsv, hmemb⟩ := collapseAll_mem hb hmem
    refine ⟨s, hsv, ?_⟩
    rw [← Option.some.inj hres]
    exact mem_filterMap_pairs (mem_dictUpdate_of_ne hover hmemb)

/-- Witness for C7: the multi-valued key b, not named in the overrides,
is kept with the first element of its sequence. -/
theorem claim7_witness :
    ∃ s, collapseValue (QueryValue.list [("x"), ("y")]) = some s
      ∧ ((("b"), s) ∈ [(("a"), ("1")), (("b"), ("x")), (("c"), ("3"))]) :=
  claim7_codec_preserves_other_keys
    [(("a"), QueryValue.str ("1")), (("b"), QueryValue.list [("x"), ("y")])]
    [(("c"), some ("3"))] [(("a"), ("1")), (("b"), ("x")), (("c"), ("3"))] ("b")
    (QueryValue.list [("x"), ("y")]) (by decide) (by decide) (by decide)

/-- Claim C8, evaluated at the failing input: with integer choice values
1 Open and 2 Closed and current query parameters status = "2", every
option including Closed is inactive, because is_active compares the query
string "2" with the raw integer 2 and Python equality across the two
types is false; the claim (and the spec) expect Closed to be active by
string comparison. -/
theorem claim8_int_choices_never_active :
    ((SmartFilter.mk ("status")
        (FieldKind.choicesField [(FilterVal.int 1, ("Open")), (FilterVal.int 2, ("Closed"))])
        [(("status"), QueryValue.str ("2"))]).get_values.map SmartFilterValue.is_active)
      = [some false, some false, some false] := by decide

/-- Claim C9: for every filter the first option of get_values is the
synthetic All option carrying the None sentinel, and that option is
active exactly when the parameter name is absent from the query
parameters. -/
theorem claim9_all_option_first (f : SmartFilter) :
    f.get_values.head?
        = some (SmartFilterValue.mk f.field_name ("All") FilterVal.none f.query_params)
    ∧ ((SmartFilterValue.mk f.field_name ("All") FilterVal.none f.query_params).is_active
          = some true
        ↔ dictGet f.query_params f.field_name = none) := by
  constructor
  · rfl
  · cases hget : dictGet f.query_params f.field_name with
    | none =>
      unfold SmartFilterValue.is_active
      rw [hget]
      simp
    | some qv =>
      unfold SmartFilterValue.is_active
      rw [hget]
      apply iff_of_false
      · cases qv with
        | str s => simp [collapseValue, pyEqStrVal]
        | list l =>
          cases l with
          | nil => simp [collapseValue]
          | cons a t => simp [collapseValue, pyEqStrVal]
      · simp

/-- Claim C10 (amended): on the empty sort state (ordering parameter
absent or the empty string) get_remove_sort_by and get_reverse_sort_by
both fail (parsing the missing or empty token raises, modelled by none),
while get_add_sort_by on the very same state succeeds and produces a
query string whose sort token is column_id alone provided no current
value is an empty sequence (on a mapping holding an empty sequence the
codec raises inside add as well); the three operations are not all total
on that state. -/
theorem claim10_sort_ops_on_empty (qp : QueryParams) (oqp : String) (cid : Nat)
    (hq : dictGet qp oqp = none ∨ dictGet qp oqp = some (QueryValue.str ("")))
    (hqp : ∀ p ∈ qp, p.2 ≠ QueryValue.list []) :
    ∃ o, SmartOrder.init qp cid oqp = some o
      ∧ o.get_remove_sort_by = none
      ∧ o.get_reverse_sort_by = none
      ∧ ∃ pairs, updated_query qp [(oqp, some (String.mk (natDigits cid)))] = some pairs
          ∧ o.get_add_sort_by = some (String.singleton '?' ++ urlencode pairs)
          ∧ (oqp, String.mk (natDigits cid)) ∈ pairs := by
  obtain ⟨pairs, hp, hmem⟩ := codec_override_mem oqp (String.mk (natDigits cid)) hqp
  have hQ : get_url_with_query_params qp [(oqp, some (String.mk (natDigits cid)))]
      = some (String.singleton '?' ++ urlencode pairs) := by
    rw [get_url_with_query_params, hp]
    rfl
  have hTok : renderToken [(⟨cid, false⟩ : SortElem)] = String.mk (natDigits cid) := rfl
  rcases hq with hq | hq
  · refine ⟨SmartOrder.mk qp cid oqp none [], init_absent hq, rfl, rfl, pairs, hp, ?_, hmem⟩
    rw [get_add_render_empty_none, hTok, hQ]
  · refine ⟨SmartOrder.mk qp cid oqp (some ("")) [], init_empty_str hq, rfl, rfl, pairs, hp, ?_, hmem⟩
    rw [get_add_render_empty_str, hTok, hQ]

/-- Witness for C10 on the empty mapping with column 1. -/
theorem claim10_witness :
    ∃ o, SmartOrder.init [] 1 ("o") = some o
      ∧ o.get_remove_sort_by = none
      ∧ o.get_reverse_sort_by = none
      ∧ ∃ pairs, updated_query [] [(("o"), some (String.mk (natDigits 1)))] = some pairs
          ∧ o.get_add_sort_by = some (String.singleton '?' ++ urlencode pairs)
          ∧ ((("o"), String.mk (natDigits 1)) ∈ pairs) :=
  claim10_sort_ops_on_empty [] ("o") 1 (Or.inl rfl) (by simp)

/-- Counterexample for C10 as stated: with the sort parameter absent but
another key mapped to the empty sequence, the SmartOrder is constructed,
yet get_add_sort_by does not succeed either: the codec raises IndexError
at value[0] (modelled by none) before any query string is produced, so
the claim that add always succeeds on the empty sort state is false. -/
theorem claim10_counterexample :
    SmartOrder.init [(("x"), QueryValue.list [])] 1 ("o")
        = some (SmartOrder.mk [(("x"), QueryValue.list [])] 1 ("o") none [])
    ∧ (SmartOrder.mk [(("x"), QueryValue.list [])] 1 ("o") none []).get_add_sort_by = none := by
  exact ⟨by decide, by decide⟩
